import Mathlib

/-!
Verification of the pydoop mapreduce streaming-protocol core
(`pydoop/mapreduce/streams.py` and `pydoop/mapreduce/binary_streams.py`).

Modelling conventions:
* A decoded command record `(cmd, args)` is a `Command V`: a command code
  (`Nat`, the constants below) together with the argument tuple, modelled as
  `List V` over an abstract payload type `V` (a `None`/absent argument tuple
  is the empty list).
* A single-pass iterator of commands is modelled by the list of items it has
  yet to produce; `push_back` prepends to that list.  The `PushBackStream`
  class itself is modelled faithfully as a structure with its `lifo` stack,
  and lemmas below relate it to the flat-list view (`toList`).
* Python generators are modelled by step functions (one `next()` call on the
  generator) and by drain functions (full consumption).  `raise
  StopIteration` inside a generator body ends the generator cleanly, and
  `raise StopIteration` in the `next` method signals clean end-of-sequence;
  both are the `stop`/`ok` outcomes below.  Raised protocol exceptions are
  the `err`/`error` outcomes.
* The external `private_decode` function and the utf-8 text encoder are
  abstract parameters (`pd`, `enc`).
-/

/-! Command-code constants, transcribed from `streams.py` lines 27-45. -/

abbrev START_MESSAGE : Nat := 0
abbrev SET_JOB_CONF : Nat := 1
abbrev SET_INPUT_TYPES : Nat := 2
abbrev RUN_MAP : Nat := 3
abbrev MAP_ITEM : Nat := 4
abbrev RUN_REDUCE : Nat := 5
abbrev REDUCE_KEY : Nat := 6
abbrev REDUCE_VALUE : Nat := 7
abbrev CLOSE : Nat := 8
abbrev ABORT : Nat := 9
abbrev AUTHENTICATION_REQ : Nat := 10
abbrev OUTPUT : Nat := 50
abbrev PARTITIONED_OUTPUT : Nat := 51
abbrev STATUS : Nat := 52
abbrev PROGRESS : Nat := 53
abbrev DONE : Nat := 54
abbrev REGISTER_COUNTER : Nat := 55
abbrev INCREMENT_COUNTER : Nat := 56
abbrev AUTHENTICATION_RESP : Nat := 57

/-- Exceptions of the protocol layer.  `protocolError` is a plain
`ProtocolError` (`streams.py` line 48); `protocolAbort` is its distinguished
subtype `ProtocolAbort` (line 52); `indexError` models the `IndexError` a
Python `args[0]` raises on an empty argument tuple. -/
inductive PyErr where
  | protocolError
  | protocolAbort
  | indexError
deriving DecidableEq

/-- A decoded command record `(cmd, args)`. -/
structure Command (V : Type) where
  code : Nat
  args : List V
deriving DecidableEq

/-- The `PushBackStream` class (`streams.py` lines 168-186): an underlying
single-pass iterator (modelled by the list of items it has yet to yield)
plus the `lifo` pushback stack (stack top at the list head). -/
structure PushBackStream (α : Type) where
  lifo : List α
  stream_iterator : List α
deriving DecidableEq

/-- Transcribes `PushBackStream.__next__` (lines 177-180): pop the pushback
stack if non-empty, else draw from the underlying iterator; `none` is the
`StopIteration` of an exhausted stream. -/
def PushBackStream.next {α : Type} : PushBackStream α → Option (α × PushBackStream α)
  | ⟨v :: l, it⟩ => some (v, ⟨l, it⟩)
  | ⟨[], x :: it⟩ => some (x, ⟨[], it⟩)
  | ⟨[], []⟩ => none

/-- Transcribes `PushBackStream.push_back` (lines 185-186). -/
def PushBackStream.push_back {α : Type} (s : PushBackStream α) (v : α) : PushBackStream α :=
  ⟨v :: s.lifo, s.stream_iterator⟩

/-- The flat-list view of a `PushBackStream`: the sequence of items it will
yield from now on. -/
def PushBackStream.toList {α : Type} (s : PushBackStream α) : List α :=
  s.lifo ++ s.stream_iterator

/-! ## KeyValuesStream (`streams.py` lines 189-247)

The `KeyValuesStream` object holds the shared `PushBackStream` cursor and
the `private_encoding` flag (lines 191-193).  Its generators are modelled
below as functions over the flat cursor (`List (Command V)`); `pd` stands
for the external `private_decode`. -/

structure KeyValuesStream (V : Type) where
  stream : PushBackStream (Command V)
  private_encoding : Bool

/-- Transcribes `KeyValuesStream.__init__` (lines 191-193): wrap the given
command stream in a fresh `PushBackStream`; `private_encoding` defaults to
`True`. -/
def KeyValuesStream.make {V : Type} (stream : List (Command V))
    (private_encoding : Bool := true) : KeyValuesStream V :=
  ⟨⟨[], stream⟩, private_encoding⟩

/-- Transcribes `get_key_values_stream` (lines 246-247); `private_encoding`
defaults to `True`. -/
def get_key_values_stream {V : Type} (stream : List (Command V))
    (private_encoding : Bool := true) : KeyValuesStream V :=
  KeyValuesStream.make stream private_encoding

/-- Outcome of one pull on the outer key-values sequence: `yield` a decoded
key together with the cursor position from which the inner values sequence
(created by `self.get_value_stream(self.stream)`) will draw, `stop` for
clean end-of-sequence (`StopIteration`), or a raised exception. -/
inductive OuterOut (V : Type) where
  | yield (key : V) (s : List (Command V))
  | stop
  | err (e : PyErr)
deriving DecidableEq

/-- Transcribes one pull on the generator `KeyValuesStream.fast_iterator`
(lines 198-212): `CLOSE` ends the sequence; `REDUCE_KEY` decodes `args[0]`
(through `private_decode` iff the flag is set) and yields the pair;
`REDUCE_VALUE` is skipped (`continue`); anything else raises
`ProtocolError("out of order command")`. -/
def fast_iterator_step {V : Type} (pd : V → V) (private_encoding : Bool) :
    List (Command V) → OuterOut V
  | [] => .stop
  | ⟨cmd, args⟩ :: rest =>
    if cmd = CLOSE then .stop
    else if cmd = REDUCE_KEY then
      match args with
      | a :: _ => .yield (if private_encoding then pd a else a) rest
      | [] => .err .indexError
    else if cmd = REDUCE_VALUE then fast_iterator_step pd private_encoding rest
    else .err .protocolError

/-- Transcribes one call of the method `KeyValuesStream.next` (lines
214-227), which loops over the same cursor with the same four-way dispatch
as `fast_iterator` and returns the first `(key, values_stream)` pair. -/
def next_method_step {V : Type} (pd : V → V) (private_encoding : Bool) :
    List (Command V) → OuterOut V
  | [] => .stop
  | ⟨cmd, args⟩ :: rest =>
    if cmd = CLOSE then .stop
    else if cmd = REDUCE_KEY then
      match args with
      | a :: _ => .yield (if private_encoding then pd a else a) rest
      | [] => .err .indexError
    else if cmd = REDUCE_VALUE then next_method_step pd private_encoding rest
    else .err .protocolError

/-- Outcome of one pull on an inner values sequence: `yield` a decoded value
and the advanced cursor, `stop` cleanly leaving the cursor as given (the
terminating command, when there is one, has been pushed back), or a raised
exception. -/
inductive ValueOut (V : Type) where
  | yield (v : V) (s : List (Command V))
  | stop (s : List (Command V))
  | err (e : PyErr)
deriving DecidableEq

/-- Transcribes one pull on the generator `KeyValuesStream.get_value_stream`
(lines 232-243): `CLOSE` is pushed back and the sequence ends; a
`REDUCE_VALUE` payload `args[0]` is decoded and yielded; any other command
is pushed back and the sequence ends; an exhausted cursor also ends it. -/
def get_value_stream_step {V : Type} (pd : V → V) (private_encoding : Bool) :
    List (Command V) → ValueOut V
  | [] => .stop []
  | ⟨cmd, args⟩ :: rest =>
    if cmd = CLOSE then .stop (⟨cmd, args⟩ :: rest)
    else if cmd = REDUCE_VALUE then
      match args with
      | a :: _ => .yield (if private_encoding then pd a else a) rest
      | [] => .err .indexError
    else .stop (⟨cmd, args⟩ :: rest)

/-- Full consumption of one inner values sequence
(`KeyValuesStream.get_value_stream`, lines 232-243): collect the decoded
`REDUCE_VALUE` payloads in order until the sequence ends, returning them
with the cursor as the ended sequence leaves it. -/
def get_value_stream_drain {V : Type} (pd : V → V) (private_encoding : Bool) :
    List (Command V) → Except PyErr (List V × List (Command V))
  | [] => .ok ([], [])
  | ⟨cmd, args⟩ :: rest =>
    if cmd = CLOSE then .ok ([], ⟨cmd, args⟩ :: rest)
    else if cmd = REDUCE_VALUE then
      match args with
      | a :: _ =>
        (get_value_stream_drain pd private_encoding rest).map
          (fun p => ((if private_encoding then pd a else a) :: p.1, p.2))
      | [] => .error .indexError
    else .ok ([], ⟨cmd, args⟩ :: rest)

theorem get_value_stream_drain_length_le {V : Type} (pd : V → V) (pe : Bool) :
    ∀ (l : List (Command V)) (vs : List V) (s : List (Command V)),
      get_value_stream_drain pd pe l = .ok (vs, s) → s.length ≤ l.length := by
  intro l
  induction l with
  | nil =>
    intro vs s h
    simp [get_value_stream_drain] at h
    simp [h.2]
  | cons c rest ih =>
    intro vs s h
    obtain ⟨cmd, args⟩ := c
    by_cases hc : cmd = CLOSE
    · simp [get_value_stream_drain, hc] at h
      simp [← h.2, hc]
    · by_cases hv : cmd = REDUCE_VALUE
      · cases args with
        | nil => simp [get_value_stream_drain, hc, hv] at h
        | cons a as =>
          simp only [get_value_stream_drain, hc, hv, if_false, if_true, if_pos, if_neg,
            reduceIte] at h
          cases hrec : get_value_stream_drain pd pe rest with
          | error e => rw [hrec] at h; simp [Except.map] at h
          | ok p =>
            rw [hrec] at h
            simp [Except.map] at h
            have := ih p.1 p.2 (by rw [hrec])
            calc s.length = p.2.length := by rw [← h.2]
              _ ≤ rest.length := this
              _ ≤ rest.length + 1 := Nat.le_succ _
      · simp [get_value_stream_drain, hc, hv] at h
        simp [← h.2]

/-- Full consumption of the outer key-values sequence with each group fully
drained before the next outer pair is requested: one pull of
`fast_iterator` (lines 198-212) per group, then `get_value_stream_drain`
on the shared cursor, as the fully-draining caller of a `KeyValuesStream`
interleaves them. -/
def key_values_drain {V : Type} (pd : V → V) (private_encoding : Bool) :
    List (Command V) → Except PyErr (List (V × List V))
  | [] => .ok []
  | ⟨cmd, args⟩ :: rest =>
    if cmd = CLOSE then .ok []
    else if cmd = REDUCE_KEY then
      match args with
      | a :: _ =>
        match h : get_value_stream_drain pd private_encoding rest with
        | .error e => .error e
        | .ok (vs, s) =>
          match key_values_drain pd private_encoding s with
          | .error e => .error e
          | .ok gs => .ok (((if private_encoding then pd a else a), vs) :: gs)
      | [] => .error .indexError
    else if cmd = REDUCE_VALUE then key_values_drain pd private_encoding rest
    else .error .protocolError
termination_by l => l.length
decreasing_by
  · exact Nat.lt_succ_of_le (get_value_stream_drain_length_le pd private_encoding rest vs s h)
  · simp

/-- Transcribes the generator `get_key_value_stream` (lines 250-258), fully
consumed: `MAP_ITEM` yields its whole `args` tuple unchanged, `CLOSE` (or an
exhausted cursor) ends the sequence cleanly, anything else raises
`ProtocolError("out of order command")`. -/
def get_key_value_stream {V : Type} :
    List (Command V) → Except PyErr (List (List V))
  | [] => .ok []
  | ⟨cmd, args⟩ :: rest =>
    if cmd = CLOSE then .ok []
    else if cmd = MAP_ITEM then
      (get_key_value_stream rest).map (fun items => args :: items)
    else .error .protocolError

/-! ## BinaryWriter (`binary_streams.py` lines 32-48)

Python argument values as `BinaryWriter.send` distinguishes them: text
(`unicode`/`str`), byte strings, integers, and nested tuples.  Byte strings
are lists of byte values; `enc` stands for the external utf-8 encoder
`str.encode`. -/

inductive PyVal where
  | text (s : String)
  | bytes (b : List Nat)
  | int (n : Int)
  | tup (vs : List PyVal)

/-- The per-argument normalization inside `BinaryWriter.send` (lines 43-44):
`x.encode('utf-8') if isinstance(x, unicode) else x`. -/
def normalize_arg (enc : String → List Nat) : PyVal → PyVal
  | .text s => .bytes (enc s)
  | v => v

/-- Transcribes `BinaryWriter.send` (lines 41-48), returning the record
passed to `self.stream.write`: every text argument is utf-8 encoded, then,
when `cmd == SET_JOB_CONF`, the whole argument tuple is wrapped as one
nested argument. -/
def BinaryWriter.send (enc : String → List Nat) (cmd : Nat) (args : List PyVal) :
    Nat × List PyVal :=
  let args := args.map (normalize_arg enc)
  let args := if cmd = SET_JOB_CONF then [.tup args] else args
  (cmd, args)

/-! ## Well-formed reduce-phase inputs

A well-formed down-command sequence for the reduce phase is a list of
groups, each a `REDUCE_KEY` followed by that key's `REDUCE_VALUE` commands,
terminated by `CLOSE`. -/

/-- Encode a list of `(key, values)` groups as the corresponding well-formed
down-command sequence. -/
def encodeGroups {V : Type} : List (V × List V) → List (Command V)
  | [] => [⟨CLOSE, []⟩]
  | (k, vs) :: gs =>
    ⟨REDUCE_KEY, [k]⟩ :: (vs.map fun v => ⟨REDUCE_VALUE, [v]⟩) ++ encodeGroups gs

/-- The decode applied to `REDUCE_KEY`/`REDUCE_VALUE` payloads: through
`private_decode` iff the private-encoding flag is set. -/
def decodePayload {V : Type} (pd : V → V) (private_encoding : Bool) (a : V) : V :=
  if private_encoding then pd a else a

/-! ## Supporting lemmas

The two `PushBackStream` operations act on the flat-list view as head
removal and cons; this justifies modelling the shared cursor threaded
through the `KeyValuesStream` generators as a plain `List (Command V)` with
`push_back = List.cons`. -/

theorem PushBackStream.next_toList {α : Type} (s : PushBackStream α) :
    (s.next = none → s.toList = []) ∧
    ∀ x s', s.next = some (x, s') → s.toList = x :: s'.toList := by
  obtain ⟨l, it⟩ := s
  cases l with
  | nil =>
    cases it with
    | nil => simp [PushBackStream.next, PushBackStream.toList]
    | cons x it =>
      refine ⟨by simp [PushBackStream.next], ?_⟩
      intro y s' h
      simp [PushBackStream.next] at h
      simp [PushBackStream.toList, h.1, ← h.2]
  | cons v l =>
    refine ⟨by simp [PushBackStream.next], ?_⟩
    intro y s' h
    simp [PushBackStream.next] at h
    simp [PushBackStream.toList, h.1, ← h.2]

theorem PushBackStream.push_back_toList {α : Type} (s : PushBackStream α) (v : α) :
    (s.push_back v).toList = v :: s.toList := by
  simp [PushBackStream.push_back, PushBackStream.toList]

theorem get_value_stream_drain_values {V : Type} (pd : V → V) (pe : Bool)
    (vs : List V) (cmd : Nat) (cargs : List V) (rest : List (Command V))
    (h : cmd ≠ REDUCE_VALUE) :
    get_value_stream_drain pd pe
        ((vs.map fun v => ⟨REDUCE_VALUE, [v]⟩) ++ ⟨cmd, cargs⟩ :: rest)
      = .ok (vs.map (decodePayload pd pe), ⟨cmd, cargs⟩ :: rest) := by
  induction vs with
  | nil =>
    by_cases hc : cmd = CLOSE
    · simp [get_value_stream_drain, hc]
    · simp [get_value_stream_drain, hc, h]
  | cons v vs ih =>
    simp [get_value_stream_drain, ih, Except.map, decodePayload]

theorem encodeGroups_head_ne_reduce_value {V : Type} (gs : List (V × List V)) :
    ∃ cmd cargs rest, encodeGroups gs = ⟨cmd, cargs⟩ :: rest ∧ cmd ≠ REDUCE_VALUE := by
  cases gs with
  | nil => exact ⟨CLOSE, [], [], rfl, by decide⟩
  | cons g gs =>
    exact ⟨REDUCE_KEY, [g.1], _, rfl, by decide⟩

theorem key_values_drain_cons_key {V : Type} (pd : V → V) (pe : Bool)
    (a : V) (extra : List V) (rest : List (Command V)) :
    key_values_drain pd pe (⟨REDUCE_KEY, a :: extra⟩ :: rest)
      = match get_value_stream_drain pd pe rest with
        | .error e => .error e
        | .ok (vs, s) =>
          match key_values_drain pd pe s with
          | .error e => .error e
          | .ok gs => .ok ((decodePayload pd pe a, vs) :: gs) := by
  rw [key_values_drain.eq_def]
  simp only [decodePayload]
  rw [if_neg (by decide : ¬ ((REDUCE_KEY : Nat) = CLOSE))]
  simp only [if_true]
  split <;> rename_i h <;> rw [h]

theorem key_values_drain_encodeGroups {V : Type} (pd : V → V) (pe : Bool)
    (gs : List (V × List V)) :
    key_values_drain pd pe (encodeGroups gs)
      = .ok (gs.map fun g => (decodePayload pd pe g.1, g.2.map (decodePayload pd pe))) := by
  induction gs with
  | nil => simp [encodeGroups, key_values_drain]
  | cons g gs ih =>
    obtain ⟨k, vs⟩ := g
    obtain ⟨cmd, cargs, rest, he, hne⟩ := encodeGroups_head_ne_reduce_value gs
    rw [encodeGroups, List.cons_append, key_values_drain_cons_key, he,
      get_value_stream_drain_values pd pe vs cmd cargs rest hne]
    simp only []
    rw [← he, ih]
    simp [decodePayload]

/-! ## Claims -/

/-- C1: for every well-formed down-command sequence (a list of groups, each
a `REDUCE_KEY` followed by that key's `REDUCE_VALUE` commands, terminated by
`CLOSE`), when each inner values sequence is fully drained before the next
outer pair is requested, `KeyValuesStream` yields its keys in exactly the
order of the `REDUCE_KEY` commands, and the values yielded for each key are
exactly the `REDUCE_VALUE` payloads lying between that `REDUCE_KEY` and the
next `REDUCE_KEY`/`CLOSE`, in input order (decoded through `private_decode`
when the private-encoding flag is set; verbatim when it is not). -/
theorem claim_C1_order_preservation {V : Type} (pd : V → V) (pe : Bool)
    (gs : List (V × List V)) :
    key_values_drain pd pe (encodeGroups gs)
      = .ok (gs.map fun g => (decodePayload pd pe g.1, g.2.map (decodePayload pd pe)))
    ∧ key_values_drain pd false (encodeGroups gs) = .ok gs := by
  refine ⟨key_values_drain_encodeGroups pd pe gs, ?_⟩
  rw [key_values_drain_encodeGroups]
  have hdec : decodePayload pd false = fun a : V => a :=
    funext fun a => by simp [decodePayload]
  simp [hdec]

/-- C2 counterexample: on the spec's reduce-side input, abandon the first
group's values sequence after reading only `"1"`.  The next request on the
outer sequence does NOT raise `ProtocolError`: the outer scan silently skips
the unconsumed `REDUCE_VALUE` command (`continue`, `streams.py` lines
208-209) and yields the next key `"b"`. -/
theorem claim_C2_counterexample :
    fast_iterator_step (fun s => s) false
        [⟨REDUCE_KEY, ["a"]⟩, ⟨REDUCE_VALUE, ["1"]⟩, ⟨REDUCE_VALUE, ["2"]⟩,
         ⟨REDUCE_KEY, ["b"]⟩, ⟨REDUCE_VALUE, ["3"]⟩, ⟨CLOSE, []⟩]
      = .yield "a"
          [⟨REDUCE_VALUE, ["1"]⟩, ⟨REDUCE_VALUE, ["2"]⟩, ⟨REDUCE_KEY, ["b"]⟩,
           ⟨REDUCE_VALUE, ["3"]⟩, ⟨CLOSE, []⟩]
    ∧ get_value_stream_step (fun s => s) false
        [⟨REDUCE_VALUE, ["1"]⟩, ⟨REDUCE_VALUE, ["2"]⟩, ⟨REDUCE_KEY, ["b"]⟩,
         ⟨REDUCE_VALUE, ["3"]⟩, ⟨CLOSE, []⟩]
      = .yield "1"
          [⟨REDUCE_VALUE, ["2"]⟩, ⟨REDUCE_KEY, ["b"]⟩, ⟨REDUCE_VALUE, ["3"]⟩, ⟨CLOSE, []⟩]
    ∧ fast_iterator_step (fun s => s) false
        [⟨REDUCE_VALUE, ["2"]⟩, ⟨REDUCE_KEY, ["b"]⟩, ⟨REDUCE_VALUE, ["3"]⟩, ⟨CLOSE, []⟩]
      = .yield "b" [⟨REDUCE_VALUE, ["3"]⟩, ⟨CLOSE, []⟩]
    ∧ (OuterOut.yield "b" [⟨REDUCE_VALUE, ["3"]⟩, ⟨CLOSE, []⟩]
        ≠ OuterOut.err PyErr.protocolError) := by
  refine ⟨?_, ?_, ?_, ?_⟩ <;>
    simp [fast_iterator_step, get_value_stream_step]

/-- C2 amended: abandoning an inner values sequence leaves the shared cursor
paused mid-group, but the next request on the outer sequence does not raise:
the outer scan silently skips any run of unconsumed `REDUCE_VALUE` commands
and yields the next key. -/
theorem claim_C2_amended {V : Type} (pd : V → V) (pe : Bool)
    (vs : List (List V)) (k : V) (extra : List V) (rest : List (Command V)) :
    fast_iterator_step pd pe
        ((vs.map fun args => ⟨REDUCE_VALUE, args⟩) ++ ⟨REDUCE_KEY, k :: extra⟩ :: rest)
      = .yield (decodePayload pd pe k) rest := by
  induction vs with
  | nil => simp [fast_iterator_step, decodePayload]
  | cons v vs ih => simp [fast_iterator_step, ih]

/-- C3 counterexample: an `ABORT` command drawn by the outer scan or by
`get_key_value_stream` raises plain `ProtocolError` (the `else` branch),
which is not the `ProtocolAbort` subtype, and an `ABORT` drawn by an inner
values sequence raises nothing at all: it is pushed back and the inner
sequence ends cleanly. -/
theorem claim_C3_counterexample :
    fast_iterator_step (V := Nat) (fun v => v) true [⟨ABORT, []⟩] = .err .protocolError
    ∧ get_key_value_stream (V := Nat) [⟨ABORT, []⟩] = .error .protocolError
    ∧ get_value_stream_step (V := Nat) (fun v => v) true [⟨ABORT, []⟩]
        = .stop [⟨ABORT, []⟩]
    ∧ PyErr.protocolError ≠ PyErr.protocolAbort :=
  ⟨rfl, rfl, rfl, by decide⟩

/-- C3 amended: `ProtocolAbort` is never raised by this module.  An `ABORT`
drawn by the outer scan (either implementation) or by
`get_key_value_stream` raises plain `ProtocolError` immediately, so the
full drain stops there and no later command is examined; an `ABORT` drawn
by an inner values sequence is pushed back and ends that sequence cleanly
(the outer scan then fails on it when it is drawn again). -/
theorem claim_C3_amended {V : Type} (pd : V → V) (pe : Bool) (args : List V)
    (rest : List (Command V)) :
    fast_iterator_step pd pe (⟨ABORT, args⟩ :: rest) = .err .protocolError
    ∧ next_method_step pd pe (⟨ABORT, args⟩ :: rest) = .err .protocolError
    ∧ get_key_value_stream (⟨ABORT, args⟩ :: rest) = .error .protocolError
    ∧ get_value_stream_step pd pe (⟨ABORT, args⟩ :: rest) = .stop (⟨ABORT, args⟩ :: rest)
    ∧ key_values_drain pd pe (⟨ABORT, args⟩ :: rest) = .error .protocolError := by
  refine ⟨?_, ?_, ?_, ?_, ?_⟩
  · simp [fast_iterator_step]
  · simp [next_method_step]
  · simp [get_key_value_stream]
  · simp [get_value_stream_step]
  · rw [key_values_drain.eq_def]
    simp

/-- C4: a `CLOSE` command drawn while the outer scan is looking for the next
key ends the outer sequence as normal end-of-sequence (the `stop`/`ok`
outcome), not by raising an error. -/
theorem claim_C4_close_clean {V : Type} (pd : V → V) (pe : Bool)
    (args : List V) (rest : List (Command V)) :
    fast_iterator_step pd pe (⟨CLOSE, args⟩ :: rest) = .stop
    ∧ next_method_step pd pe (⟨CLOSE, args⟩ :: rest) = .stop
    ∧ key_values_drain pd pe (⟨CLOSE, args⟩ :: rest) = .ok [] := by
  refine ⟨?_, ?_, ?_⟩
  · simp [fast_iterator_step]
  · simp [next_method_step]
  · rw [key_values_drain.eq_def]
    simp

/-- C5: on a sequence of `MAP_ITEM` commands followed by `CLOSE`,
`get_key_value_stream` yields exactly each `MAP_ITEM`'s `args` payload
unchanged, in input order, then terminates cleanly; and any command code
other than `MAP_ITEM`/`CLOSE` makes it raise `ProtocolError`. -/
theorem claim_C5_map_side {V : Type} (items : List (List V)) (cmd : Nat)
    (cargs : List V) (rest : List (Command V))
    (h1 : cmd ≠ MAP_ITEM) (h2 : cmd ≠ CLOSE) :
    get_key_value_stream ((items.map fun args => ⟨MAP_ITEM, args⟩) ++ [⟨CLOSE, []⟩])
      = .ok items
    ∧ get_key_value_stream ((items.map fun args => ⟨MAP_ITEM, args⟩) ++ ⟨cmd, cargs⟩ :: rest)
      = .error .protocolError := by
  constructor
  · induction items with
    | nil => simp [get_key_value_stream]
    | cons i items ih => simp [get_key_value_stream, ih, Except.map]
  · induction items with
    | nil => simp [get_key_value_stream, h1, h2]
    | cons i items ih => simp [get_key_value_stream, ih, Except.map]

theorem claim_C5_map_side_witness :
    get_key_value_stream ((([["k1", "v1"], ["k2", "v2"]] : List (List String)).map
        fun args => ⟨MAP_ITEM, args⟩) ++ [⟨CLOSE, []⟩])
      = .ok [["k1", "v1"], ["k2", "v2"]]
    ∧ get_key_value_stream ((([["k1", "v1"]] : List (List String)).map
        fun args => ⟨MAP_ITEM, args⟩) ++ ⟨RUN_REDUCE, []⟩ :: [])
      = .error .protocolError :=
  ⟨(claim_C5_map_side [["k1", "v1"], ["k2", "v2"]] RUN_REDUCE [] []
      (by decide) (by decide)).1,
   (claim_C5_map_side [["k1", "v1"]] RUN_REDUCE [] [] (by decide) (by decide)).2⟩

/-- C6: `push_back(a)` then `push_back(b)` makes the next two `next()` calls
return `b` then `a`, leaving the underlying iterator untouched; in general
`next()` after `push_back(v)` returns `v` and restores exactly the prior
state, so the most recently pushed-back item is always delivered before the
underlying iterator is drawn from (LIFO stack discipline). -/
theorem claim_C6_pushback_lifo {α : Type} (s : PushBackStream α) (a b : α) :
    ((s.push_back a).push_back b).next = some (b, s.push_back a)
    ∧ (s.push_back a).next = some (a, s)
    ∧ ((s.push_back a).push_back b).stream_iterator = s.stream_iterator
    ∧ ∀ v : α, (s.push_back v).next = some (v, s) :=
  ⟨rfl, rfl, rfl, fun _ => rfl⟩

/-- C7: `BinaryWriter.send` encodes every text argument to bytes, leaves
non-text arguments unchanged, and when the command is `SET_JOB_CONF` wraps
the whole normalized argument tuple as one single nested argument; for any
other command the normalized arguments are written positionally. -/
theorem claim_C7_send (enc : String → List Nat) (cmd : Nat) (args : List PyVal) :
    (BinaryWriter.send enc cmd args).1 = cmd
    ∧ (cmd = SET_JOB_CONF →
        (BinaryWriter.send enc cmd args).2 = [.tup (args.map (normalize_arg enc))])
    ∧ (cmd ≠ SET_JOB_CONF →
        (BinaryWriter.send enc cmd args).2 = args.map (normalize_arg enc))
    ∧ (∀ t, normalize_arg enc (.text t) = .bytes (enc t))
    ∧ (∀ b, normalize_arg enc (.bytes b) = .bytes b)
    ∧ (∀ n, normalize_arg enc (.int n) = .int n)
    ∧ (∀ ts, normalize_arg enc (.tup ts) = .tup ts) := by
  refine ⟨rfl, fun h => ?_, fun h => ?_, fun _ => rfl, fun _ => rfl, fun _ => rfl,
    fun _ => rfl⟩
  · simp [BinaryWriter.send, h]
  · simp [BinaryWriter.send, h]

theorem claim_C7_send_witness :
    (BinaryWriter.send (fun _ => []) SET_JOB_CONF [.text "k", .int 3]).2
        = [.tup [.bytes [], .int 3]]
    ∧ (BinaryWriter.send (fun _ => []) OUTPUT [.text "k", .int 3]).2
        = [.bytes [], .int 3] :=
  ⟨(claim_C7_send (fun _ => []) SET_JOB_CONF [.text "k", .int 3]).2.1 rfl,
   (claim_C7_send (fun _ => []) OUTPUT [.text "k", .int 3]).2.2.1 (by decide)⟩

/-- C8: while the outer scan is looking for the next key, drawing any
command whose code is not `REDUCE_KEY`, `REDUCE_VALUE` or `CLOSE` raises
`ProtocolError`. -/
theorem claim_C8_out_of_order {V : Type} (pd : V → V) (pe : Bool) (cmd : Nat)
    (args : List V) (rest : List (Command V))
    (h1 : cmd ≠ REDUCE_KEY) (h2 : cmd ≠ REDUCE_VALUE) (h3 : cmd ≠ CLOSE) :
    fast_iterator_step pd pe (⟨cmd, args⟩ :: rest) = .err .protocolError
    ∧ next_method_step pd pe (⟨cmd, args⟩ :: rest) = .err .protocolError := by
  constructor <;> simp [fast_iterator_step, next_method_step, h1, h2, h3]

theorem claim_C8_out_of_order_witness :
    fast_iterator_step (V := Nat) (fun v => v) true [⟨MAP_ITEM, [0]⟩]
        = .err .protocolError
    ∧ next_method_step (V := Nat) (fun v => v) true [⟨MAP_ITEM, [0]⟩]
        = .err .protocolError :=
  claim_C8_out_of_order (fun v => v) true MAP_ITEM [0] []
    (by decide) (by decide) (by decide)

/-- C9: the generator-based `fast_iterator` (the `__iter__` path) and the
`next()` method dispatch identically on every cursor state: same yielded
pair, same clean termination, same raised exception; the two
implementations are observationally equivalent. -/
theorem claim_C9_fast_iterator_next_equiv {V : Type} (pd : V → V) (pe : Bool)
    (l : List (Command V)) :
    fast_iterator_step pd pe l = next_method_step pd pe l := by
  induction l with
  | nil => rfl
  | cons c rest ih =>
    obtain ⟨cmd, args⟩ := c
    by_cases h8 : cmd = CLOSE
    · simp [fast_iterator_step, next_method_step, h8]
    · by_cases h6 : cmd = REDUCE_KEY
      · cases args <;> simp [fast_iterator_step, next_method_step, h8, h6]
      · by_cases h7 : cmd = REDUCE_VALUE
        · simp [fast_iterator_step, next_method_step, h8, h6, h7, ih]
        · simp [fast_iterator_step, next_method_step, h8, h6, h7]

/-- C10: the private-encoding flag of `KeyValuesStream` (and of
`get_key_values_stream`) defaults to `true`; with the flag set the first
payload element of every `REDUCE_KEY` and `REDUCE_VALUE` is decoded through
`private_decode`, and with the flag `false` it passes through unchanged. -/
theorem claim_C10_private_encoding_default {V : Type} (l : List (Command V))
    (pd : V → V) (a : V) (extra : List V) (rest : List (Command V)) :
    (KeyValuesStream.make l).private_encoding = true
    ∧ (get_key_values_stream l).private_encoding = true
    ∧ fast_iterator_step pd true (⟨REDUCE_KEY, a :: extra⟩ :: rest) = .yield (pd a) rest
    ∧ fast_iterator_step pd false (⟨REDUCE_KEY, a :: extra⟩ :: rest) = .yield a rest
    ∧ get_value_stream_step pd true (⟨REDUCE_VALUE, a :: extra⟩ :: rest)
        = .yield (pd a) rest
    ∧ get_value_stream_step pd false (⟨REDUCE_VALUE, a :: extra⟩ :: rest)
        = .yield a rest := by
  refine ⟨rfl, rfl, ?_, ?_, ?_, ?_⟩ <;>
    simp [fast_iterator_step, get_value_stream_step]
